import Mathlib

/-!
Verification development for the bank-transaction normalizer described in
the repository's design document (a tabular transaction normalizer:
`normalize(rows, layout) -> transactions`).  The repository's notebook
delegates row coercion to an external CSV reader
(`read_csv(parse_dates=[0], date_format="%Y%m%d", thousands=",")` plus
explicit description concatenation and column dropping); the normalizer
itself is specified only at design level, so it is modelled here from the
spec, anchored to the concrete behaviours the notebook exhibits.
-/

namespace BankImport

/-- Modelled from the spec: a date-format pattern is an ordered sequence of
fields (4-digit year, 2-digit month, 2-digit day) and literal separator
characters; `"yyyymmdd"` is `[year, month, day]`.  The repository only
invokes the external reader's `date_format="%Y%m%d"`; the strict parser
itself is not in the source. -/
inductive DateFmtItem where
  | year : DateFmtItem
  | month : DateFmtItem
  | day : DateFmtItem
  | lit : Char → DateFmtItem
  deriving DecidableEq, Repr

/-- The `"yyyymmdd"` date format of the notebook's `date_format="%Y%m%d"`. -/
def fmtYYYYMMDD : List DateFmtItem := [.year, .month, .day]

/-- The `"yyyy-mm-dd"` date format of the notebook's first, already-clean file. -/
def fmtYYYYdashMMdashDD : List DateFmtItem :=
  [.year, .lit '-', .month, .lit '-', .day]

/-- Read exactly `n` decimal digits from the front of `cs`, accumulating the
value into `acc`; fails if a non-digit (or end of input) is hit first. -/
def readDigits : Nat → Nat → List Char → Option (Nat × List Char)
  | 0, acc, cs => some (acc, cs)
  | _ + 1, _, [] => none
  | n + 1, acc, c :: cs =>
    if c.isDigit then readDigits n (acc * 10 + (c.toNat - 48)) cs else none

/-- A calendar date: year, month, day — no time component. -/
structure Date where
  year : Nat
  month : Nat
  day : Nat
  deriving DecidableEq, Repr

/-- Gregorian leap-year rule. -/
def isLeapYear (y : Nat) : Bool :=
  (y % 4 == 0 && y % 100 != 0) || y % 400 == 0

/-- Number of days in a month of the Gregorian calendar. -/
def daysInMonth (y m : Nat) : Nat :=
  if m = 2 then (if isLeapYear y then 29 else 28)
  else if m = 4 ∨ m = 6 ∨ m = 9 ∨ m = 11 then 30
  else 31

/-- A date is a valid calendar date: month in 1..12, day in range for the month. -/
def validDate (d : Date) : Bool :=
  decide (1 ≤ d.month ∧ d.month ≤ 12 ∧ 1 ≤ d.day ∧ d.day ≤ daysInMonth d.year d.month)

/-- Modelled from the spec: run a date-format pattern over the input
characters, threading the year/month/day fields read so far.  Strict: each
field consumes exactly its digit count, literals must match exactly, the
input must be exhausted, and all three fields must have been read. -/
def runFmt : List DateFmtItem → List Char → Option Nat → Option Nat → Option Nat →
    Option (Nat × Nat × Nat)
  | [], [], some y, some m, some d => some (y, m, d)
  | [], _, _, _, _ => none
  | .year :: rest, cs, _, m, d =>
    match readDigits 4 0 cs with
    | some (v, rs) => runFmt rest rs (some v) m d
    | none => none
  | .month :: rest, cs, y, _, d =>
    match readDigits 2 0 cs with
    | some (v, rs) => runFmt rest rs y (some v) d
    | none => none
  | .day :: rest, cs, y, m, _ =>
    match readDigits 2 0 cs with
    | some (v, rs) => runFmt rest rs y m (some v)
    | none => none
  | .lit _ :: _, [], _, _, _ => none
  | .lit c :: rest, x :: cs, y, m, d =>
    if c = x then runFmt rest cs y m d else none

/-- Modelled from the spec: strict date parsing against a layout's date
format — the input must match the format exactly in digit count and field
order, with no partial or lenient parsing, and the result must be a valid
calendar date.  (The repository delegates this to the external reader's
`parse_dates`/`date_format` options.) -/
def parseDate (fmt : List DateFmtItem) (s : String) : Option Date :=
  match runFmt fmt s.data none none none with
  | some (y, m, d) => if validDate ⟨y, m, d⟩ then some ⟨y, m, d⟩ else none
  | none => none

/-- Modelled from the spec: remove every occurrence of the configured
thousands-separator character from the raw amount text, wherever it appears
(the strip-all-occurrences behaviour of the reader's `thousands=","`). -/
def stripThousands (sep : Option Char) (s : String) : String :=
  match sep with
  | none => s
  | some c => ⟨s.data.filter (fun a => a != c)⟩

/-- Parse a nonempty all-digit character list as a natural number. -/
def digitsVal : List Char → Nat → Option Nat
  | [], acc => some acc
  | c :: cs, acc =>
    if c.isDigit then digitsVal cs (acc * 10 + (c.toNat - 48)) else none

/-- Parse a nonempty all-digit character list as a natural number;
fails on the empty list and on any non-digit character. -/
def parseNatStrict (cs : List Char) : Option Nat :=
  if cs.isEmpty then none else digitsVal cs 0

/-- A signed decimal number of arbitrary precision, represented exactly as
a scaled integer: the value is `num / 10 ^ scale`.  No binary
floating-point is involved anywhere. -/
structure Decimal where
  num : Int
  scale : Nat
  deriving DecidableEq, Repr

/-- The exact rational value of a `Decimal`. -/
def Decimal.toRat (d : Decimal) : ℚ :=
  (d.num : ℚ) / 10 ^ d.scale

/-- Modelled from the spec: an unsigned decimal numeral `digits` or
`digits.digits`, read exactly; the decimal point is always the single
character `.`. -/
def parseUnsignedParts (cs : List Char) : Option Decimal :=
  match cs.splitOn '.' with
  | [ip] => (parseNatStrict ip).map (fun (n : Nat) => ⟨(n : Int), 0⟩)
  | [ip, fp] =>
    match parseNatStrict ip, parseNatStrict fp with
    | some n, some f => some ⟨((n * 10 ^ fp.length + f : Nat) : Int), fp.length⟩
    | _, _ => none
  | _ => none

/-- Modelled from the spec: a signed decimal numeral — an optional leading
`-` or `+` sign followed by an unsigned decimal numeral; the sign of the
source is preserved in the value. -/
def parseDecChars : List Char → Option Decimal
  | '-' :: cs => (parseUnsignedParts cs).map (fun d => ⟨-d.num, d.scale⟩)
  | '+' :: cs => parseUnsignedParts cs
  | cs => parseUnsignedParts cs

/-- Parse a string as a signed exact decimal number. -/
def parseSignedDecimal (s : String) : Option Decimal :=
  parseDecChars s.data

/-- Modelled from the spec: amount coercion — strip the configured
thousands-separator character (all occurrences), then parse the remainder
as a signed decimal number. -/
def parseAmount (sep : Option Char) (s : String) : Option Decimal :=
  parseSignedDecimal (stripThousands sep s)

/-- One source line's fields before semantic typing; column meaning is positional. -/
abbrev RawRow := List String

/-- Modelled from the spec: the column-layout descriptor supplied by the
caller per source file shape. -/
structure ColumnLayout where
  dateColumn : Nat
  dateFormat : List DateFmtItem
  descriptionColumns : List Nat
  amountColumn : Nat
  thousandsSeparator : Option Char
  deriving DecidableEq, Repr

/-- The canonical output record: calendar date (no time component), single
description string, exact signed decimal amount. -/
structure Transaction where
  date : Date
  description : String
  amount : Decimal
  deriving DecidableEq, Repr

/-- The sub-kinds of `FormatError` named by the spec. -/
inductive FormatErrorKind where
  | InvalidDate : FormatErrorKind
  | InvalidAmount : FormatErrorKind
  | WrongFieldCount : FormatErrorKind
  deriving DecidableEq, Repr

/-- Modelled from the spec: the per-row coercion error, carrying its kind,
the offending row index and the raw text that failed to parse. -/
structure FormatError where
  kind : FormatErrorKind
  row : Nat
  raw : String
  deriving DecidableEq, Repr

/-- Lift an optional value into the error monad with the given `FormatError`. -/
def require {α : Type} (o : Option α) (e : FormatError) : Except FormatError α :=
  match o with
  | some a => .ok a
  | none => .error e

/-- Extract the fields at the given column indices, in declared order;
fails if any index is out of range. -/
def getFields (row : RawRow) : List Nat → Option (List String)
  | [] => some []
  | j :: js =>
    match row.get? j, getFields row js with
    | some v, some vs => some (v :: vs)
    | _, _ => none

/-- Modelled from the spec: description assembly — the text of each
description-fragment column in declared order, joined with the fixed
separator `" - "` (an empty fragment still contributes an empty segment).
This mirrors the notebook's `description + " - " + detailed` concatenation. -/
def assembleDescription (row : RawRow) (cols : List Nat) : Option String :=
  (getFields row cols).map (String.intercalate " - ")

/-- Modelled from the spec: coerce one raw row to a `Transaction` under a
layout — strict date coercion, description assembly, amount coercion —
failing with the appropriate `FormatError` sub-kind. -/
def normalizeRow (layout : ColumnLayout) (idx : Nat) (row : RawRow) :
    Except FormatError Transaction := do
  let rawDate ← require (row.get? layout.dateColumn) ⟨.WrongFieldCount, idx, ""⟩
  let date ← require (parseDate layout.dateFormat rawDate) ⟨.InvalidDate, idx, rawDate⟩
  let desc ← require (assembleDescription row layout.descriptionColumns)
    ⟨.WrongFieldCount, idx, ""⟩
  let rawAmt ← require (row.get? layout.amountColumn) ⟨.WrongFieldCount, idx, ""⟩
  let amt ← require (parseAmount layout.thousandsSeparator rawAmt)
    ⟨.InvalidAmount, idx, rawAmt⟩
  pure ⟨date, desc, amt⟩

/-- Normalize the rows from index `i` on, fail-fast on the first bad row,
preserving row order. -/
def normalizeFrom (layout : ColumnLayout) : Nat → List RawRow →
    Except FormatError (List Transaction)
  | _, [] => .ok []
  | i, r :: rs =>
    match normalizeRow layout i r with
    | .error e => .error e
    | .ok t =>
      match normalizeFrom layout (i + 1) rs with
      | .error e => .error e
      | .ok ts => .ok (t :: ts)

/-- Modelled from the spec: `normalize(rows, layout)` — one `Transaction`
per `RawRow`, in original order, failing with a `FormatError` if any row
cannot be coerced to the layout (fail-fast on the first bad row). -/
def normalize (rows : List RawRow) (layout : ColumnLayout) :
    Except FormatError (List Transaction) :=
  normalizeFrom layout 0 rows

/-- The description-merging step of the notebook (`cell-7`/`cell-11`):
replace column `c1` with `row[c1] ++ " - " ++ row[c2]` and drop column `c2`. -/
def mergeDescRow (c1 c2 : Nat) (row : RawRow) : RawRow :=
  (row.set c1 (((row.get? c1).getD "") ++ " - " ++ ((row.get? c2).getD ""))).eraseIdx c2

/-- The description-merging step applied to a whole table, row by row. -/
def mergeDesc (c1 c2 : Nat) (table : List RawRow) : List RawRow :=
  table.map (mergeDescRow c1 c2)

/-- The layout of the notebook's second, irregular file `02.csv`:
date in column 0 formatted `yyyymmdd`, description split over columns 1 and
2, amount in column 3 with `,` as thousands separator. -/
def layout02 : ColumnLayout :=
  ⟨0, fmtYYYYMMDD, [1, 2], 3, some ','⟩

/-- The third data row of the notebook's `02.csv`. -/
def exRow : RawRow := ["20240402", "My Employer", "April 2024", "1,234.56"]

/-- The expected normalization of `exRow` under `layout02`:
the amount `⟨123456, 2⟩` is the exact decimal `1234.56`. -/
def exTx : Transaction := ⟨⟨2024, 4, 2⟩, "My Employer - April 2024", ⟨123456, 2⟩⟩

/-- A row with an empty description fragment in column 1, to exercise the
empty-segment behaviour of description assembly. -/
def exRowEmptyFrag : RawRow := ["20240402", "", "April 2024", "1,234.56"]

/-- Decidable equality for `Except` results, so that concrete runs of the
normalizer can be checked by `decide`. -/
instance {ε α : Type} [DecidableEq ε] [DecidableEq α] : DecidableEq (Except ε α) := fun x y =>
  match x, y with
  | .ok a, .ok b =>
    if h : a = b then .isTrue (by rw [h]) else .isFalse (fun hc => h (Except.ok.inj hc))
  | .error e, .error f =>
    if h : e = f then .isTrue (by rw [h]) else .isFalse (fun hc => h (Except.error.inj hc))
  | .ok _, .error _ => .isFalse (fun hc => Except.noConfusion hc)
  | .error _, .ok _ => .isFalse (fun hc => Except.noConfusion hc)

/-! Helper lemmas about the embedding. -/

/-- An `Except` bind returns a success exactly when both stages succeed. -/
theorem bind_ok_iff {ε α β : Type} (x : Except ε α) (f : α → Except ε β) (b : β) :
    (x >>= f) = Except.ok b ↔ ∃ a, x = Except.ok a ∧ f a = Except.ok b := by
  cases x <;> simp [Bind.bind, Except.bind]

/-- The `require` coercion succeeds exactly when the underlying option is populated. -/
theorem require_ok_iff {α : Type} (o : Option α) (e : FormatError) (a : α) :
    require o e = Except.ok a ↔ o = some a := by
  cases o <;> simp [require]

/-- Inversion of a successful row coercion: every stage of `normalizeRow`
succeeded and the output transaction is assembled from the stages' results. -/
theorem normalizeRow_ok_elim {layout : ColumnLayout} {i : Nat} {row : RawRow}
    {t : Transaction} (h : normalizeRow layout i row = Except.ok t) :
    ∃ rawDate date desc rawAmt amt,
      row.get? layout.dateColumn = some rawDate ∧
      parseDate layout.dateFormat rawDate = some date ∧
      assembleDescription row layout.descriptionColumns = some desc ∧
      row.get? layout.amountColumn = some rawAmt ∧
      parseAmount layout.thousandsSeparator rawAmt = some amt ∧
      t = ⟨date, desc, amt⟩ := by
  unfold normalizeRow at h
  obtain ⟨rawDate, h1, h⟩ := (bind_ok_iff _ _ _).mp h
  obtain ⟨date, h2, h⟩ := (bind_ok_iff _ _ _).mp h
  obtain ⟨desc, h3, h⟩ := (bind_ok_iff _ _ _).mp h
  obtain ⟨rawAmt, h4, h⟩ := (bind_ok_iff _ _ _).mp h
  obtain ⟨amt, h5, h⟩ := (bind_ok_iff _ _ _).mp h
  rw [require_ok_iff] at h1 h2 h3 h4 h5
  exact ⟨rawDate, date, desc, rawAmt, amt, h1, h2, h3, h4, h5, (Except.ok.inj h).symm⟩

/-- A successful `getFields` returns exactly the fields at the requested
indices, in order. -/
theorem getFields_eq {row : RawRow} : ∀ {cols : List Nat} {l : List String},
    getFields row cols = some l → l = cols.map (fun j => (row.get? j).getD "") := by
  intro cols
  induction cols with
  | nil => intro l h; simp [getFields] at h; simp [h.symm]
  | cons j js ih =>
    intro l h
    unfold getFields at h
    cases hv : row.get? j <;> cases hg : getFields row js <;> rw [hv, hg] at h <;> simp at h
    subst h
    rw [List.map_cons, hv]
    simp [ih hg]

/-- Whatever `parseDate` returns is a valid calendar date. -/
theorem parseDate_valid {fmt : List DateFmtItem} {s : String} {d : Date}
    (h : parseDate fmt s = some d) : validDate d = true := by
  unfold parseDate at h
  cases hr : runFmt fmt s.data none none none with
  | none => rw [hr] at h; simp at h
  | some v =>
    obtain ⟨y, m, dd⟩ := v
    rw [hr] at h
    by_cases hv : validDate ⟨y, m, dd⟩ = true
    · simp only [hv, if_true] at h
      cases h
      exact hv
    · simp [hv] at h

/-- Setting one position of a list leaves every other position unchanged. -/
theorem get?_set_ne {α : Type} (l : List α) (a : α) {i j : Nat} (h : j ≠ i) :
    (l.set i a).get? j = l.get? j := by
  induction l generalizing i j with
  | nil => simp
  | cons x xs ih =>
    cases i with
    | zero =>
      cases j with
      | zero => exact absurd rfl h
      | succ j => simp [List.set]
    | succ i =>
      cases j with
      | zero => simp [List.set]
      | succ j => simpa [List.set] using ih (fun hc => h (by rw [hc]))

/-- Removing position `i` of a list leaves the positions before it unchanged. -/
theorem get?_eraseIdx_lt {α : Type} (l : List α) {i j : Nat} (h : j < i) :
    (l.eraseIdx i).get? j = l.get? j := by
  induction l generalizing i j with
  | nil => simp [List.eraseIdx]
  | cons x xs ih =>
    cases i with
    | zero => exact absurd h (Nat.not_lt_zero j)
    | succ i =>
      cases j with
      | zero => simp [List.eraseIdx]
      | succ j => simpa [List.eraseIdx] using ih (Nat.lt_of_succ_lt_succ h)

/-- Removing position `i` of a list shifts the positions at or after it down by one. -/
theorem get?_eraseIdx_ge {α : Type} (l : List α) {i j : Nat} (h : i ≤ j) :
    (l.eraseIdx i).get? j = l.get? (j + 1) := by
  induction l generalizing i j with
  | nil => simp [List.eraseIdx]
  | cons x xs ih =>
    cases i with
    | zero => simp [List.eraseIdx]
    | succ i =>
      cases j with
      | zero => exact absurd h (by omega)
      | succ j => simpa [List.eraseIdx] using ih (Nat.le_of_succ_le_succ h)

/-- A successful `normalizeFrom` run yields one transaction per row. -/
theorem normalizeFrom_ok_length {layout : ColumnLayout} :
    ∀ (rows : List RawRow) (i : Nat) (ts : List Transaction),
      normalizeFrom layout i rows = Except.ok ts → ts.length = rows.length := by
  intro rows
  induction rows with
  | nil =>
    intro i ts h
    simp [normalizeFrom] at h
    simp [h.symm]
  | cons r rs ih =>
    intro i ts h
    unfold normalizeFrom at h
    cases hr : normalizeRow layout i r with
    | error e => rw [hr] at h; exact Except.noConfusion h
    | ok t =>
      rw [hr] at h
      cases hrs : normalizeFrom layout (i + 1) rs with
      | error e => rw [hrs] at h; exact Except.noConfusion h
      | ok ts2 =>
        rw [hrs] at h
        cases h
        simp [ih (i + 1) ts2 hrs]

/-- In a successful `normalizeFrom` run, output `k` is the coercion of input
row `k` (with row indices offset by the starting index `i`). -/
theorem normalizeFrom_ok_get {layout : ColumnLayout} :
    ∀ (rows : List RawRow) (i k : Nat) (ts : List Transaction),
      normalizeFrom layout i rows = Except.ok ts →
      ts.get? k = (rows.get? k).bind (fun r => (normalizeRow layout (i + k) r).toOption) := by
  intro rows
  induction rows with
  | nil =>
    intro i k ts h
    simp [normalizeFrom] at h
    subst h
    simp
  | cons r rs ih =>
    intro i k ts h
    unfold normalizeFrom at h
    cases hr : normalizeRow layout i r with
    | error e => rw [hr] at h; exact Except.noConfusion h
    | ok t =>
      rw [hr] at h
      cases hrs : normalizeFrom layout (i + 1) rs with
      | error e => rw [hrs] at h; exact Except.noConfusion h
      | ok ts2 =>
        rw [hrs] at h
        cases h
        cases k with
        | zero => simp [hr, Except.toOption]
        | succ k =>
          have hik : i + (k + 1) = (i + 1) + k := by omega
          simp only [List.get?_cons_succ, hik]
          exact ih (i + 1) k ts2 hrs

/-- Mapping a function over a list acts pointwise on every position. -/
theorem get?_map {α β : Type} (f : α → β) (l : List α) (n : Nat) :
    (l.map f).get? n = (l.get? n).map f := by
  induction l generalizing n with
  | nil => simp
  | cons x xs ih => cases n <;> simp [ih]

/-! The claims. -/

/-- Claim C1: for the input row
`["20240402", "My Employer", "April 2024", "1,234.56"]` under the layout
with date column 0 formatted `yyyymmdd`, description columns `[1, 2]`,
amount column 3 and thousands separator `,`, `normalize` succeeds and
returns the transaction with date 2024-04-02, description
`"My Employer - April 2024"` and amount exactly `1234.56`. -/
theorem claim_example_split_description :
    ∃ t : Transaction,
      normalize [exRow] layout02 = Except.ok [t] ∧
      t.date = ⟨2024, 4, 2⟩ ∧
      t.description = "My Employer - April 2024" ∧
      t.amount.toRat = (1234.56 : ℚ) :=
  ⟨exTx, by decide, rfl, rfl, by norm_num [exTx, Decimal.toRat]⟩

/-- Claim C2: date parsing is strict with respect to the layout's date
format — in particular `"2024-04-04"` does not parse against `yyyymmdd` —
and whenever the date field of a row fails to parse against the layout's
format, `normalizeRow` fails with a `FormatError` of kind `InvalidDate`
carrying the row index and the raw date text. -/
theorem claim_strict_date_parsing :
    parseDate fmtYYYYMMDD "2024-04-04" = none ∧
    ∀ (layout : ColumnLayout) (i : Nat) (row : RawRow) (s : String),
      row.get? layout.dateColumn = some s →
      parseDate layout.dateFormat s = none →
      normalizeRow layout i row = Except.error ⟨.InvalidDate, i, s⟩ := by
  refine ⟨by decide, ?_⟩
  intro layout i row s hget hparse
  unfold normalizeRow
  rw [hget]
  simp [require, hparse, Bind.bind, Except.bind]

/-- Witness for claim C2 at the concrete mismatching row of the spec. -/
theorem claim_strict_date_parsing_witness :
    normalizeRow layout02 0 ["2024-04-04", "My Employer", "April 2024", "1,234.56"] =
      Except.error ⟨.InvalidDate, 0, "2024-04-04"⟩ :=
  claim_strict_date_parsing.2 layout02 0
    ["2024-04-04", "My Employer", "April 2024", "1,234.56"] "2024-04-04" rfl (by decide)

/-- Claim C3: amount coercion removes every occurrence of the configured
thousands-separator character wherever it appears, then parses the
remainder as a signed decimal; in particular `"1,23"` with separator `,`
parses to the number `123` (not an error, not a grouping-aware value). -/
theorem claim_thousands_strip_all :
    (∀ (c : Char) (s : String) (a : Char), a ∈ (stripThousands (some c) s).data → a ≠ c) ∧
    (∀ (c : Char) (s : String),
      parseAmount (some c) s = parseDecChars (s.data.filter (fun a => a != c))) ∧
    parseAmount (some ',') "1,23" = some ⟨123, 0⟩ ∧
    (Decimal.mk 123 0).toRat = (123 : ℚ) := by
  refine ⟨?_, fun c s => rfl, by decide, by norm_num [Decimal.toRat]⟩
  intro c s a ha
  have hmem := List.mem_filter.mp (show a ∈ s.data.filter (fun x => x != c) from ha)
  simpa using hmem.2

/-- Witness for claim C3: the character kept from stripping `"1,23"` is not
the separator. -/
theorem claim_thousands_strip_all_witness : ('1' : Char) ≠ ',' :=
  claim_thousands_strip_all.1 ',' "1,23" '1' (by decide)

/-- Claim C4: for every successfully coerced row, the output description is
the texts of the description-fragment columns joined in declared order with
the fixed separator `" - "`; empty fragments contribute empty segments and
the separator is always inserted (this is what joining the full column list
means — no fragment is skipped). -/
theorem claim_description_join_order :
    ∀ (layout : ColumnLayout) (i : Nat) (row : RawRow) (t : Transaction),
      normalizeRow layout i row = Except.ok t →
      t.description =
        String.intercalate " - "
          (layout.descriptionColumns.map (fun j => (row.get? j).getD "")) := by
  intro layout i row t h
  obtain ⟨rd, d, desc, ra, a, h1, h2, h3, h4, h5, rfl⟩ := normalizeRow_ok_elim h
  unfold assembleDescription at h3
  obtain ⟨l, hl, hd⟩ := Option.map_eq_some'.mp h3
  rw [show (Transaction.mk d desc a).description = desc from rfl, ← hd, getFields_eq hl]

/-- Witness for claim C4 at a row whose first description fragment is empty:
the separator is still inserted, giving description `" - April 2024"`. -/
theorem claim_description_join_order_witness :
    (Transaction.mk ⟨2024, 4, 2⟩ " - April 2024" ⟨123456, 2⟩).description =
      String.intercalate " - "
        (layout02.descriptionColumns.map (fun j => (exRowEmptyFrag.get? j).getD "")) :=
  claim_description_join_order layout02 0 exRowEmptyFrag
    (Transaction.mk ⟨2024, 4, 2⟩ " - April 2024" ⟨123456, 2⟩) (by decide)

/-- Claim C5: row count invariant — when no row fails coercion under the
layout (that is, when `normalize` succeeds), the number of transactions
returned equals the number of input rows. -/
theorem claim_row_count_invariant :
    ∀ (rows : List RawRow) (layout : ColumnLayout) (ts : List Transaction),
      normalize rows layout = Except.ok ts → ts.length = rows.length :=
  fun rows _ ts h => normalizeFrom_ok_length rows 0 ts h

/-- Witness for claim C5 at a concrete one-row input. -/
theorem claim_row_count_invariant_witness :
    ([exTx] : List Transaction).length = ([exRow] : List RawRow).length :=
  claim_row_count_invariant [exRow] layout02 [exTx] (by decide)

/-- Claim C6: order preservation — in every successful run, transaction `i`
of the output is exactly the normalization of row `i` of the input, so the
original file order is the output order and no sorting is performed. -/
theorem claim_order_preservation :
    ∀ (rows : List RawRow) (layout : ColumnLayout) (ts : List Transaction),
      normalize rows layout = Except.ok ts →
      ∀ i, ts.get? i = (rows.get? i).bind (fun r => (normalizeRow layout i r).toOption) := by
  intro rows layout ts h i
  simpa using normalizeFrom_ok_get rows 0 i ts h

/-- Witness for claim C6 at a concrete one-row input and index 0. -/
theorem claim_order_preservation_witness :
    ([exTx] : List Transaction).get? 0 =
      (([exRow] : List RawRow).get? 0).bind (fun r => (normalizeRow layout02 0 r).toOption) :=
  claim_order_preservation [exRow] layout02 [exTx] (by decide) 0

/-- Claim C7: `normalize` is deterministic — two runs on the same rows and
the same layout return identical transaction sequences.  (Freedom from side
effects holds by construction: `normalize` is a pure function of its two
arguments in this embedding, as in the spec.) -/
theorem claim_normalize_deterministic :
    ∀ (rows1 rows2 : List RawRow) (layout1 layout2 : ColumnLayout),
      rows1 = rows2 → layout1 = layout2 →
      normalize rows1 layout1 = normalize rows2 layout2 := by
  intro rows1 rows2 layout1 layout2 h1 h2
  rw [h1, h2]

/-- Witness for claim C7 at a concrete run. -/
theorem claim_normalize_deterministic_witness :
    normalize [exRow] layout02 = normalize [exRow] layout02 :=
  claim_normalize_deterministic [exRow] [exRow] layout02 layout02 rfl rfl

/-- Claim C8: every successfully normalized amount is an exact signed
decimal: multiplying the amount's rational value by `10 ^ scale` recovers
the integer numerator exactly (no floating-point rounding); the unsigned
numeral always parses to a nonnegative numerator, and a leading `-` in the
source exactly negates it (sign preserved).  No currency symbol is
representable in a `Decimal`. -/
theorem claim_amount_exact_decimal :
    (∀ (layout : ColumnLayout) (i : Nat) (row : RawRow) (t : Transaction),
      normalizeRow layout i row = Except.ok t →
      t.amount.toRat * 10 ^ t.amount.scale = (t.amount.num : ℚ)) ∧
    (∀ (cs : List Char) (d : Decimal), parseUnsignedParts cs = some d → 0 ≤ d.num) ∧
    (∀ cs : List Char, parseDecChars ('-' :: cs) =
      (parseUnsignedParts cs).map (fun d => Decimal.mk (-d.num) d.scale)) := by
  refine ⟨?_, ?_, fun cs => rfl⟩
  · intro layout i row t h
    unfold Decimal.toRat
    rw [div_mul_cancel₀]
    exact pow_ne_zero _ (by norm_num)
  · intro cs d h
    unfold parseUnsignedParts at h
    split at h
    · obtain ⟨n, hn, hd⟩ := Option.map_eq_some'.mp h
      rw [← hd]
      show (0 : Int) ≤ ((n : Nat) : Int)
      positivity
    · split at h
      · cases h
        dsimp only
        positivity
      · exact Option.noConfusion h
    · exact Option.noConfusion h

/-- Witness for claim C8 at the concrete transaction of Example 2. -/
theorem claim_amount_exact_decimal_witness :
    exTx.amount.toRat * 10 ^ exTx.amount.scale = (exTx.amount.num : ℚ) :=
  claim_amount_exact_decimal.1 layout02 0 exRow exTx (by decide)

/-- Claim C9: for every successfully coerced row, the output date field is
a valid calendar date (its type carries year, month and day only — there is
no time component to represent). -/
theorem claim_date_calendar_valid :
    ∀ (layout : ColumnLayout) (i : Nat) (row : RawRow) (t : Transaction),
      normalizeRow layout i row = Except.ok t → validDate t.date = true := by
  intro layout i row t h
  obtain ⟨rd, d, desc, ra, a, h1, h2, h3, h4, h5, rfl⟩ := normalizeRow_ok_elim h
  exact parseDate_valid h2

/-- Witness for claim C9 at the concrete transaction of Example 2. -/
theorem claim_date_calendar_valid_witness : validDate exTx.date = true :=
  claim_date_calendar_valid layout02 0 exRow exTx (by decide)

/-- Claim C10: frame property of the description-merging step — for every
table, replacing column `c1` with the concatenation and dropping column
`c2` leaves the value of every other column of every row unchanged (columns
after the dropped one shift down by exactly one position). -/
theorem claim_merge_description_frame :
    ∀ (c1 c2 : Nat) (table : List RawRow) (i j : Nat) (row : RawRow),
      c1 < c2 → table.get? i = some row → j ≠ c1 → j ≠ c2 →
      (mergeDesc c1 c2 table).get? i = some (mergeDescRow c1 c2 row) ∧
      (mergeDescRow c1 c2 row).get? (if j < c2 then j else j - 1) = row.get? j := by
  intro c1 c2 table i j row h12 htab hj1 hj2
  constructor
  · unfold mergeDesc
    rw [get?_map, htab]
    rfl
  · unfold mergeDescRow
    by_cases hlt : j < c2
    · rw [if_pos hlt, get?_eraseIdx_lt _ hlt, get?_set_ne _ _ hj1]
    · rw [if_neg hlt, get?_eraseIdx_ge _ (by omega), (by omega : j - 1 + 1 = j),
        get?_set_ne _ _ hj1]

/-- Witness for claim C10 at the notebook's own column positions: merging
description columns 1 and 2 leaves the amount column (3, at position 2
after the drop) unchanged. -/
theorem claim_merge_description_frame_witness :
    (mergeDesc 1 2 [exRow]).get? 0 = some (mergeDescRow 1 2 exRow) ∧
    (mergeDescRow 1 2 exRow).get? (if 3 < 2 then 3 else 3 - 1) = exRow.get? 3 :=
  claim_merge_description_frame 1 2 [exRow] 0 3 exRow (by decide) rfl (by decide) (by decide)

end BankImport
